import Mathlib

/-!
Verification of the persistent multi-index state store of the
`cashu_mls_chat` browser interface (`src/web/src/mdk_storage.rs` and
`src/web/src/wallet_db.rs`).

The Rust code is shallowly embedded: hash maps become association lists
(`HashMap::insert` replaces the binding for an existing key, so insertion
erases the old binding and conses the new one), machine integers become
`Nat` with an explicit `% 2^w` where overflow matters, and fallible code
returns `Option` / `Except String`.  Opaque types from the external
libraries (`Group`, `Message`, `ProofInfo`, ...) are embedded as
structures carrying exactly the fields the repository's code reads,
plus an uninterpreted `String` payload standing for the remaining
fields, which the store only clones and never inspects.
-/

namespace CashuMlsChat

/-! ## Bytes, hex encoding, decimal rendering (the snapshot codec's key encoding)

`hex::encode` produces two lowercase hex digits per byte; `hex::decode`
accepts upper- and lowercase digits and fails on odd length or a
non-hex character.  `format!("\x7b\x7d", n)` on a `u64` renders the decimal
digits; `str::parse::<u64>` reads them back. -/

/-- A Rust `u8`. -/
abbrev Byte := Fin 256

/-- Lowercase hex digit character for a nibble, as produced by `hex::encode`. -/
def toHexDigit (n : Nat) : Char :=
  if n < 10 then Char.ofNat (48 + n) else Char.ofNat (87 + n)

/-- Value of a hex digit character, as accepted by `hex::decode`
(digits, lowercase and uppercase letters). -/
def fromHexDigit (c : Char) : Option Nat :=
  if 48 ≤ c.toNat ∧ c.toNat ≤ 57 then some (c.toNat - 48)
  else if 97 ≤ c.toNat ∧ c.toNat ≤ 102 then some (c.toNat - 87)
  else if 65 ≤ c.toNat ∧ c.toNat ≤ 70 then some (c.toNat - 55)
  else none

/-- `hex::encode`: two lowercase digits per byte, in order. -/
def hexEncode : List Byte → List Char
  | [] => []
  | b :: bs => toHexDigit (b.val / 16) :: toHexDigit (b.val % 16) :: hexEncode bs

/-- `hex::decode`: fails on odd length or a non-hex character. -/
def hexDecode : List Char → Option (List Byte)
  | [] => some []
  | [_] => none
  | c1 :: c2 :: cs => do
      let hi ← fromHexDigit c1
      let lo ← fromHexDigit c2
      if h : 16 * hi + lo < 256 then
        let rest ← hexDecode cs
        some (⟨16 * hi + lo, h⟩ :: rest)
      else none

/-- Decimal digit character. -/
def decChar (n : Nat) : Char := Char.ofNat (48 + n)

/-- Value of a decimal digit character, as accepted by `str::parse::<u64>`. -/
def decDigit (c : Char) : Option Nat :=
  if 48 ≤ c.toNat ∧ c.toNat ≤ 57 then some (c.toNat - 48) else none

/-- Decimal digits of a positive number, least significant first. -/
def natToRevDigits : Nat → List Char
  | 0 => []
  | n + 1 => decChar ((n + 1) % 10) :: natToRevDigits ((n + 1) / 10)
decreasing_by exact Nat.div_lt_self (Nat.succ_pos n) (by omega)

/-- Decimal rendering of a `u64` by `format!`, most significant digit first. -/
def natToChars (n : Nat) : List Char :=
  if n = 0 then [decChar 0] else (natToRevDigits n).reverse

/-- Value of a digit list, least significant first. -/
def decValRev : List Char → Option Nat
  | [] => some 0
  | c :: cs => do
      let d ← decDigit c
      let r ← decValRev cs
      some (d + 10 * r)

/-- `str::parse::<u64>`: nonempty decimal digits, value below `2^64`. -/
def parseU64 (l : List Char) : Option Nat :=
  match l with
  | [] => none
  | _ => do
      let v ← decValRev l.reverse
      if v < 2 ^ 64 then some v else none

/-- Rust `str::split(':')`. -/
def splitColon : List Char → List (List Char)
  | [] => [[]]
  | c :: rest =>
      if c = ':' then [] :: splitColon rest
      else
        match splitColon rest with
        | [] => [[c]]
        | h :: t => (c :: h) :: t

section AlistDefs

variable {κ α : Type} [DecidableEq κ]

/-- Remove every binding for key `k`. -/
def alErase (k : κ) : List (κ × α) → List (κ × α)
  | [] => []
  | e :: rest => if e.1 = k then alErase k rest else e :: alErase k rest

/-- `HashMap::insert`: the new binding replaces any old one for the key. -/
def alInsert (k : κ) (v : α) (l : List (κ × α)) : List (κ × α) :=
  (k, v) :: alErase k l

/-- `HashMap::get`. -/
def alGet (k : κ) : List (κ × α) → Option α
  | [] => none
  | e :: rest => if e.1 = k then some e.2 else alGet k rest

/-- `HashMap::remove` (the removed value, if any, is `alGet`). -/
def alRemove (k : κ) (l : List (κ × α)) : List (κ × α) := alErase k l

end AlistDefs

/-! ## Protocol state store data model (`src/web/src/mdk_storage.rs`)

External entity types from `mdk_storage_traits` and `nostr` are embedded
with the fields the store reads; the remaining fields are carried as an
uninterpreted `payload : String` that the store clones untouched.
`GroupId` is an opaque byte string (`GroupId::from_slice` accepts any
length); `EventId` is a 32-byte identifier whose `to_hex` / `from_hex`
are lowercase hex encode / 32-byte-checked hex decode. -/

abbrev GroupId := List Byte

abbrev EventId := List Byte

abbrev PubKey := String

structure GroupRelay where
  relay_url : String
  mls_group_id : GroupId
deriving DecidableEq

structure Group where
  mls_group_id : GroupId
  nostr_group_id : List Byte
  name : String
  admin_pubkeys : List PubKey
  payload : String
deriving DecidableEq

structure Message where
  id : EventId
  mls_group_id : GroupId
  payload : String
deriving DecidableEq

structure Welcome where
  id : EventId
  payload : String
deriving DecidableEq

structure ProcessedWelcome where
  wrapper_event_id : EventId
  payload : String
deriving DecidableEq

structure ProcessedMessage where
  wrapper_event_id : EventId
  payload : String
deriving DecidableEq

structure GroupExporterSecret where
  mls_group_id : GroupId
  epoch : Nat
  secret : String
deriving DecidableEq

/-- In-memory indexes of `MdkState` (`mdk_storage.rs` lines 29-40). -/
structure MdkState where
  groups : List (GroupId × Group)
  groups_by_nostr_id : List (List Byte × Group)
  group_relays : List (GroupId × List GroupRelay)
  welcomes : List (EventId × Welcome)
  processed_welcomes : List (EventId × ProcessedWelcome)
  messages : List (EventId × Message)
  messages_by_group : List (GroupId × List Message)
  processed_messages : List (EventId × ProcessedMessage)
  group_exporter_secrets : List ((GroupId × Nat) × GroupExporterSecret)
deriving DecidableEq

/-- `MdkState::default()`. -/
def MdkState.empty : MdkState := ⟨[], [], [], [], [], [], [], [], []⟩

/-- `SerializableState` (`mdk_storage.rs` lines 16-27): the same indexes
with every binary key rendered as a text key. -/
structure SerializableState where
  groups : List (List Char × Group)
  groups_by_nostr_id : List (List Char × Group)
  group_relays : List (List Char × List GroupRelay)
  welcomes : List (List Char × Welcome)
  processed_welcomes : List (List Char × ProcessedWelcome)
  messages : List (List Char × Message)
  messages_by_group : List (List Char × List Message)
  processed_messages : List (List Char × ProcessedMessage)
  group_exporter_secrets : List (List Char × GroupExporterSecret)
deriving DecidableEq

/-- `MdkState::to_serializable` (`mdk_storage.rs` lines 43-73). -/
def MdkState.to_serializable (s : MdkState) : SerializableState where
  groups := s.groups.map (fun e => (hexEncode e.1, e.2))
  groups_by_nostr_id := s.groups_by_nostr_id.map (fun e => (hexEncode e.1, e.2))
  group_relays := s.group_relays.map (fun e => (hexEncode e.1, e.2))
  welcomes := s.welcomes.map (fun e => (hexEncode e.1, e.2))
  processed_welcomes := s.processed_welcomes.map (fun e => (hexEncode e.1, e.2))
  messages := s.messages.map (fun e => (hexEncode e.1, e.2))
  messages_by_group := s.messages_by_group.map (fun e => (hexEncode e.1, e.2))
  processed_messages := s.processed_messages.map (fun e => (hexEncode e.1, e.2))
  group_exporter_secrets := s.group_exporter_secrets.map
    (fun e => (hexEncode e.1.1 ++ ':' :: natToChars e.1.2, e.2))

/-- `collect::<Result<_, String>>()` over a fallible per-entry map. -/
def exMapM {α β : Type} (f : α → Except String β) : List α → Except String (List β)
  | [] => .ok []
  | a :: as => do
      let b ← f a
      let bs ← exMapM f as
      .ok (b :: bs)

/-- Decode a hex text key to a `GroupId` (`hex::decode` then
`GroupId::from_slice`, which accepts any length). -/
def decodeGroupIdKey (k : List Char) : Except String GroupId :=
  match hexDecode k with
  | some bs => .ok bs
  | none => .error "hex decode error"

/-- Decode a hex text key to a 32-byte app group id (`hex::decode` then
`try_into` for `[u8; 32]`). -/
def decodeNostrKey (k : List Char) : Except String (List Byte) :=
  match hexDecode k with
  | some bs =>
      if bs.length = 32 then .ok bs else .error "Invalid nostr_group_id length"
  | none => .error "hex decode error"

/-- `EventId::from_hex`: hex decode to exactly 32 bytes. -/
def decodeEventIdKey (k : List Char) : Except String EventId :=
  match hexDecode k with
  | some bs => if bs.length = 32 then .ok bs else .error "invalid event id"
  | none => .error "hex decode error"

/-- Decode a composite exporter-secret key: split on the colon, expect
exactly two parts, hex-decode the group id and parse the epoch as `u64`
(`mdk_storage.rs` lines 126-137). -/
def decodeSecretKey (k : List Char) : Except String (GroupId × Nat) :=
  match splitColon k with
  | [p1, p2] =>
      match hexDecode p1 with
      | some gid =>
          match parseU64 p2 with
          | some epoch => .ok (gid, epoch)
          | none => .error "parse int error"
      | none => .error "hex decode error"
  | _ => .error "Invalid group_exporter_secret key format"

/-- `MdkState::from_serializable` (`mdk_storage.rs` lines 75-139). -/
def MdkState.from_serializable (s : SerializableState) : Except String MdkState := do
  let groups ← exMapM (fun e => do
    let k ← decodeGroupIdKey e.1
    .ok (k, e.2)) s.groups
  let groups_by_nostr_id ← exMapM (fun e => do
    let k ← decodeNostrKey e.1
    .ok (k, e.2)) s.groups_by_nostr_id
  let group_relays ← exMapM (fun e => do
    let k ← decodeGroupIdKey e.1
    .ok (k, e.2)) s.group_relays
  let welcomes ← exMapM (fun e => do
    let k ← decodeEventIdKey e.1
    .ok (k, e.2)) s.welcomes
  let processed_welcomes ← exMapM (fun e => do
    let k ← decodeEventIdKey e.1
    .ok (k, e.2)) s.processed_welcomes
  let messages ← exMapM (fun e => do
    let k ← decodeEventIdKey e.1
    .ok (k, e.2)) s.messages
  let messages_by_group ← exMapM (fun e => do
    let k ← decodeGroupIdKey e.1
    .ok (k, e.2)) s.messages_by_group
  let processed_messages ← exMapM (fun e => do
    let k ← decodeEventIdKey e.1
    .ok (k, e.2)) s.processed_messages
  let group_exporter_secrets ← exMapM (fun e => do
    let k ← decodeSecretKey e.1
    .ok (k, e.2)) s.group_exporter_secrets
  .ok ⟨groups, groups_by_nostr_id, group_relays, welcomes, processed_welcomes,
    messages, messages_by_group, processed_messages, group_exporter_secrets⟩

/-- Typing facts that every state reachable in the Rust program has: map
keys that are `EventId`s or `[u8; 32]` hold exactly 32 bytes and epochs
fit in a `u64`. -/
def MdkState.wf (s : MdkState) : Prop :=
  (∀ e ∈ s.groups_by_nostr_id, e.1.length = 32) ∧
  (∀ e ∈ s.welcomes, e.1.length = 32) ∧
  (∀ e ∈ s.processed_welcomes, e.1.length = 32) ∧
  (∀ e ∈ s.messages, e.1.length = 32) ∧
  (∀ e ∈ s.processed_messages, e.1.length = 32) ∧
  (∀ e ∈ s.group_exporter_secrets, e.1.2 < 2 ^ 64)

instance (s : MdkState) : Decidable s.wf := by
  unfold MdkState.wf; infer_instance

/-! ## Protocol store operations (trait impls in `mdk_storage.rs`)

Each mutating operation updates the in-memory indexes under the lock
and then writes a snapshot; the snapshot write to `localStorage` either
succeeds or surfaces an error without rolling back the in-memory state,
so the state transition itself is the function below. -/

/-- `save_group` (lines 330-338): upsert into both group indexes. -/
def saveGroup (s : MdkState) (g : Group) : MdkState :=
  { s with
    groups_by_nostr_id := alInsert g.nostr_group_id g s.groups_by_nostr_id
    groups := alInsert g.mls_group_id g s.groups }

/-- `find_group_by_mls_group_id` (lines 319-321). -/
def find_group_by_mls_group_id (s : MdkState) (gid : GroupId) : Option Group :=
  alGet gid s.groups

/-- `find_group_by_nostr_group_id` (lines 323-328). -/
def find_group_by_nostr_group_id (s : MdkState) (nid : List Byte) : Option Group :=
  alGet nid s.groups_by_nostr_id

/-- `messages` (lines 340-346): the per-group ordered list, or the empty
list when the group id has no entry (`unwrap_or_default`). -/
def messagesOf (s : MdkState) (gid : GroupId) : List Message :=
  (alGet gid s.messages_by_group).getD []

/-- `save_message` (lines 408-423): insert into the event-id index and
append to the per-group ordered list (`entry(..).or_insert_with(Vec::new).push(..)`). -/
def saveMessage (s : MdkState) (m : Message) : MdkState :=
  { s with
    messages := alInsert m.id m s.messages
    messages_by_group := alInsert m.mls_group_id
      ((alGet m.mls_group_id s.messages_by_group).getD [] ++ [m])
      s.messages_by_group }

/-- `save_welcome` (lines 453-459): insert keyed by the welcome's id. -/
def saveWelcome (s : MdkState) (w : Welcome) : MdkState :=
  { s with welcomes := alInsert w.id w s.welcomes }

/-- `save_processed_welcome` (lines 475-484): insert keyed by the
marker's wrapper event id. -/
def saveProcessedWelcome (s : MdkState) (p : ProcessedWelcome) : MdkState :=
  { s with processed_welcomes := alInsert p.wrapper_event_id p s.processed_welcomes }

/-- `pending_welcomes` (lines 465-473): collect the processed-marker
keys, then keep every stored welcome whose id is not among them. -/
def pendingWelcomes (s : MdkState) : List Welcome :=
  let processed_ids := s.processed_welcomes.map Prod.fst
  (s.welcomes.map Prod.snd).filter (fun w => decide (w.id ∉ processed_ids))

/-! ## Constructors and the persistence medium

The medium (`localStorage`) stores a string per key.  We embed each
key's content quotiented by the outer parse stage: `Content.decoded c`
stands for a string from which the serde parse stage recovers `c`
(for `openmls_storage` this includes base64 decoding), and
`Content.malformed` for any string on which that stage fails
(malformed JSON, bad base64, or a JSON document of the wrong shape).
The later decode stages (`MdkState::from_serializable`, per-entry hex
decode of the engine blob map) are modelled in full. -/

inductive Content (α : Type) where
  | decoded (c : α)
  | malformed
deriving DecidableEq

/-- Wallet state store data model (`src/web/src/wallet_db.rs`).
External `cdk` types are embedded with the fields the store reads;
identifiers, URLs, units, states and spending conditions become opaque
`String` stand-ins, compared only for equality as in the source. -/

abbrev MintUrl := String

abbrev MintInfo := String

abbrev KsId := String

structure KeySetInfo where
  id : KsId
  payload : String
deriving DecidableEq

abbrev Keys := String

structure MintQuote where
  id : String
  payload : String
deriving DecidableEq

structure MeltQuote where
  id : String
  payload : String
deriving DecidableEq

abbrev CurrencyUnit := String

abbrev ProofState := String

abbrev SpendCond := String

structure ProofInfo where
  y : PubKey
  mint_url : MintUrl
  unit : CurrencyUnit
  state : ProofState
  spending_condition : Option SpendCond
  payload : String
deriving DecidableEq

structure Transaction where
  mint_url : MintUrl
  direction : String
  unit : CurrencyUnit
  ys : List PubKey
  payload : String
deriving DecidableEq

/-- `WalletState` (`wallet_db.rs` lines 20-31). -/
structure WalletState where
  mints : List (MintUrl × Option MintInfo)
  keysets : List (MintUrl × List KeySetInfo)
  keyset_map : List (KsId × KeySetInfo)
  mint_quotes : List (String × MintQuote)
  melt_quotes : List (String × MeltQuote)
  keys : List (KsId × Keys)
  proofs : List ProofInfo
  keyset_counters : List (KsId × Nat)
  transactions : List Transaction
deriving DecidableEq

/-- `WalletState::default()`. -/
def WalletState.empty : WalletState := ⟨[], [], [], [], [], [], [], [], []⟩

/-- The three keys the two stores read from the medium; `none` is an
absent key. -/
structure Medium where
  mdk_state : Option (Content SerializableState)
  openmls_storage : Option (Content (List (List Char × List Char)))
  wallet_state : Option (Content WalletState)

/-- `MdkHybridStorage` (lines 142-146): the index state plus the opaque
engine blob map (`MemoryStorage.values`). -/
structure MdkHybridStorage where
  state : MdkState
  openmls_storage : List (List Byte × List Byte)
deriving DecidableEq

/-- `load_mdk_state` (lines 150-167): absent key, unparseable JSON, or a
failing `from_serializable` conversion are all errors. -/
def load_mdk_state (m : Medium) : Except String MdkState :=
  match m.mdk_state with
  | none => .error "No MDK state found"
  | some .malformed => .error "Deserialization error"
  | some (.decoded s) => MdkState.from_serializable s

/-- One entry of the engine blob document: hex-decode key and value. -/
def decodeOpenmlsEntry (e : List Char × List Char) :
    Except String (List Byte × List Byte) :=
  match hexDecode e.1 with
  | none => .error "Failed to decode key"
  | some k =>
      match hexDecode e.2 with
      | none => .error "Failed to decode value"
      | some v => .ok (k, v)

/-- `load_openmls_storage` (lines 186-227): an absent key starts fresh,
but bad base64, unparseable JSON, or a bad hex entry is an error. -/
def load_openmls_storage (m : Medium) :
    Except String (List (List Byte × List Byte)) :=
  match m.openmls_storage with
  | none => .ok []
  | some .malformed => .error "Base64 decode error"
  | some (.decoded entries) => exMapM decodeOpenmlsEntry entries

/-- `MdkHybridStorage::new` (lines 260-286): a failing MDK-state load
falls back to the empty state, but a failing engine-blob load is
propagated with `?` and aborts construction. -/
def MdkHybridStorage.new (m : Medium) : Except String MdkHybridStorage := do
  let state :=
    match load_mdk_state m with
    | .ok s => s
    | .error _ => MdkState.empty
  let openmls ← load_openmls_storage m
  .ok ⟨state, openmls⟩

/-- `load_from_indexeddb` (`wallet_db.rs` lines 78-92): an absent key or
unparseable JSON is an error. -/
def load_from_indexeddb (m : Medium) : Except String WalletState :=
  match m.wallet_state with
  | none => .error "No wallet state found"
  | some .malformed => .error "Deserialization error"
  | some (.decoded w) => .ok w

/-- `HybridWalletDatabase::new` (`wallet_db.rs` lines 39-61): any load
failure falls back to the empty wallet state; construction never fails. -/
def HybridWalletDatabase.new (m : Medium) : Except String WalletState :=
  .ok (match load_from_indexeddb m with
    | .ok w => w
    | .error _ => WalletState.empty)

/-! ## Wallet store operations (`WalletDatabase` impl in `wallet_db.rs`)

As for the protocol store, each mutation updates the in-memory state
under the lock and then writes a snapshot; the state transition is the
function below. -/

/-- `add_mint` (lines 111-119). -/
def add_mint (s : WalletState) (url : MintUrl) (info : Option MintInfo) : WalletState :=
  { s with mints := alInsert url info s.mints }

/-- `remove_mint` (lines 121-125). -/
def remove_mint (s : WalletState) (url : MintUrl) : WalletState :=
  { s with mints := alRemove url s.mints }

/-- `get_mint` (lines 127-129): `mints.get(..).cloned().flatten()`. -/
def get_mint (s : WalletState) (url : MintUrl) : Option MintInfo :=
  (alGet url s.mints).join

/-- `get_mints` (lines 131-133). -/
def get_mints (s : WalletState) : List (MintUrl × Option MintInfo) :=
  s.mints

/-- `update_mint_url` (lines 135-148): `remove` the old binding and, when
one existed, `insert` its value under the new URL; nothing else moves. -/
def update_mint_url (s : WalletState) (old_mint_url new_mint_url : MintUrl) : WalletState :=
  match alGet old_mint_url s.mints with
  | some info => { s with mints := alInsert new_mint_url info (alRemove old_mint_url s.mints) }
  | none => s

/-- `add_mint_keysets` (lines 150-164): insert the list under the URL and
each keyset into the flat id index. -/
def add_mint_keysets (s : WalletState) (url : MintUrl) (ks : List KeySetInfo) : WalletState :=
  { s with
    keysets := alInsert url ks s.keysets
    keyset_map := ks.foldl (fun m k => alInsert k.id k m) s.keyset_map }

/-- `update_proofs` (lines 235-251): retain the proofs whose `y` is not
in the removal set, then append the added proofs. -/
def update_proofs (s : WalletState) (added : List ProofInfo) (removed_ys : List PubKey) :
    WalletState :=
  { s with proofs := s.proofs.filter (fun p => decide (p.y ∉ removed_ys)) ++ added }

/-- `get_proofs` (lines 253-276): keep the proofs matching every supplied
filter; an unsupplied filter is a wildcard.  The spending-condition arm
is `map_or(false, contains) || is_none`, so a proof without a condition
passes even a supplied condition filter. -/
def get_proofs (s : WalletState) (mint_url : Option MintUrl) (unit : Option CurrencyUnit)
    (state : Option (List ProofState)) (spending_conditions : Option (List SpendCond)) :
    List ProofInfo :=
  s.proofs.filter (fun p =>
    (match mint_url with
     | none => true
     | some url => decide (p.mint_url = url)) &&
    (match unit with
     | none => true
     | some u => decide (p.unit = u)) &&
    (match state with
     | none => true
     | some states => decide (p.state ∈ states)) &&
    (match spending_conditions with
     | none => true
     | some conds =>
        (match p.spending_condition with
         | some pc => decide (pc ∈ conds)
         | none => false) || p.spending_condition.isNone))

/-- `update_proofs_state` (lines 278-289): in-place transition of every
proof whose `y` is listed. -/
def update_proofs_state (s : WalletState) (ys : List PubKey) (new_state : ProofState) :
    WalletState :=
  { s with proofs := s.proofs.map (fun p =>
      if p.y ∈ ys then { p with state := new_state } else p) }

/-- `increment_keyset_counter` (lines 291-300): `entry(..).or_insert(0)`,
add `count`, return the value after the increment.  The counter is a
`u32`, so in the deployed release build the addition wraps modulo
`2^32`. -/
def increment_keyset_counter (s : WalletState) (keyset_id : KsId) (count : Nat) :
    WalletState × Nat :=
  let old := (alGet keyset_id s.keyset_counters).getD 0
  let new_value := (old + count) % 4294967296
  ({ s with keyset_counters := alInsert keyset_id new_value s.keyset_counters }, new_value)

/-- `add_transaction` (lines 302-306): append to the log. -/
def add_transaction (s : WalletState) (t : Transaction) : WalletState :=
  { s with transactions := s.transactions ++ [t] }

/-- `list_transactions` (lines 319-337). -/
def list_transactions (s : WalletState) (mint_url : Option MintUrl)
    (direction : Option String) (unit : Option CurrencyUnit) : List Transaction :=
  s.transactions.filter (fun t =>
    (match mint_url with
     | none => true
     | some url => decide (t.mint_url = url)) &&
    (match direction with
     | none => true
     | some dir => decide (t.direction = dir)) &&
    (match unit with
     | none => true
     | some u => decide (t.unit = u)))

/-! ## The wallet snapshot codec

`save_snapshot` writes `serde_json::to_string(&state)` and
`load_from_indexeddb` reads it back with `serde_json::from_str`.  The
derived codec is embedded structurally over a JSON document type: maps
become objects keyed by their string-rendered keys, vectors become
arrays, `Option` becomes null-or-value, and the opaque leaf types keep
their string stand-ins. -/

inductive Json where
  | null
  | str (s : String)
  | num (n : Nat)
  | arr (xs : List Json)
  | obj (fields : List (String × Json))

/-- Serde field resolution: look a field up by name in an object. -/
def Json.getField : Json → String → Option Json
  | .obj fs, name => alGet name fs
  | _, _ => none

def jStr? : Json → Option String
  | .str s => some s
  | _ => none

def jNum? : Json → Option Nat
  | .num n => some n
  | _ => none

def optMapM {α β : Type} (f : α → Option β) : List α → Option (List β)
  | [] => some []
  | a :: as => do
      let b ← f a
      let bs ← optMapM f as
      some (b :: bs)

/-- A string-keyed map as a JSON object. -/
def mapToJson {α : Type} (encV : α → Json) (l : List (String × α)) : Json :=
  .obj (l.map (fun e => (e.1, encV e.2)))

def mapFromJson {α : Type} (decV : Json → Option α) : Json → Option (List (String × α))
  | .obj fs => optMapM (fun e => do
      let v ← decV e.2
      some (e.1, v)) fs
  | _ => none

/-- A vector as a JSON array. -/
def listToJson {α : Type} (encV : α → Json) (l : List α) : Json :=
  .arr (l.map encV)

def listFromJson {α : Type} (decV : Json → Option α) : Json → Option (List α)
  | .arr xs => optMapM decV xs
  | _ => none

/-- `Option<String-like>` as null-or-string. -/
def jOptStr : Option String → Json
  | none => .null
  | some s => .str s

def jOptStr? : Json → Option (Option String)
  | .null => some none
  | .str s => some (some s)
  | _ => none

def keySetInfoToJson (k : KeySetInfo) : Json :=
  .obj [("id", .str k.id), ("payload", .str k.payload)]

def keySetInfoFromJson (j : Json) : Option KeySetInfo := do
  let i ← j.getField "id" >>= jStr?
  let p ← j.getField "payload" >>= jStr?
  some ⟨i, p⟩

def mintQuoteToJson (q : MintQuote) : Json :=
  .obj [("id", .str q.id), ("payload", .str q.payload)]

def mintQuoteFromJson (j : Json) : Option MintQuote := do
  let i ← j.getField "id" >>= jStr?
  let p ← j.getField "payload" >>= jStr?
  some ⟨i, p⟩

def meltQuoteToJson (q : MeltQuote) : Json :=
  .obj [("id", .str q.id), ("payload", .str q.payload)]

def meltQuoteFromJson (j : Json) : Option MeltQuote := do
  let i ← j.getField "id" >>= jStr?
  let p ← j.getField "payload" >>= jStr?
  some ⟨i, p⟩

def proofInfoToJson (p : ProofInfo) : Json :=
  .obj [("y", .str p.y), ("mint_url", .str p.mint_url), ("unit", .str p.unit),
    ("state", .str p.state), ("spending_condition", jOptStr p.spending_condition),
    ("payload", .str p.payload)]

def proofInfoFromJson (j : Json) : Option ProofInfo := do
  let y ← j.getField "y" >>= jStr?
  let mu ← j.getField "mint_url" >>= jStr?
  let u ← j.getField "unit" >>= jStr?
  let st ← j.getField "state" >>= jStr?
  let sc ← j.getField "spending_condition" >>= jOptStr?
  let pl ← j.getField "payload" >>= jStr?
  some ⟨y, mu, u, st, sc, pl⟩

def transactionToJson (t : Transaction) : Json :=
  .obj [("mint_url", .str t.mint_url), ("direction", .str t.direction),
    ("unit", .str t.unit), ("ys", listToJson Json.str t.ys),
    ("payload", .str t.payload)]

def transactionFromJson (j : Json) : Option Transaction := do
  let mu ← j.getField "mint_url" >>= jStr?
  let d ← j.getField "direction" >>= jStr?
  let u ← j.getField "unit" >>= jStr?
  let ys ← j.getField "ys" >>= listFromJson jStr?
  let pl ← j.getField "payload" >>= jStr?
  some ⟨mu, d, u, ys, pl⟩

/-- The derived serde serialization of `WalletState`. -/
def walletToJson (w : WalletState) : Json :=
  .obj [
    ("mints", mapToJson jOptStr w.mints),
    ("keysets", mapToJson (listToJson keySetInfoToJson) w.keysets),
    ("keyset_map", mapToJson keySetInfoToJson w.keyset_map),
    ("mint_quotes", mapToJson mintQuoteToJson w.mint_quotes),
    ("melt_quotes", mapToJson meltQuoteToJson w.melt_quotes),
    ("keys", mapToJson Json.str w.keys),
    ("proofs", listToJson proofInfoToJson w.proofs),
    ("keyset_counters", mapToJson Json.num w.keyset_counters),
    ("transactions", listToJson transactionToJson w.transactions)]

/-- The derived serde deserialization of `WalletState`. -/
def walletFromJson (j : Json) : Option WalletState := do
  let mints ← j.getField "mints" >>= mapFromJson jOptStr?
  let keysets ← j.getField "keysets" >>= mapFromJson (listFromJson keySetInfoFromJson)
  let keyset_map ← j.getField "keyset_map" >>= mapFromJson keySetInfoFromJson
  let mint_quotes ← j.getField "mint_quotes" >>= mapFromJson mintQuoteFromJson
  let melt_quotes ← j.getField "melt_quotes" >>= mapFromJson meltQuoteFromJson
  let keys ← j.getField "keys" >>= mapFromJson jStr?
  let proofs ← j.getField "proofs" >>= listFromJson proofInfoFromJson
  let keyset_counters ← j.getField "keyset_counters" >>= mapFromJson jNum?
  let transactions ← j.getField "transactions" >>= listFromJson transactionFromJson
  some ⟨mints, keysets, keyset_map, mint_quotes, melt_quotes, keys, proofs,
    keyset_counters, transactions⟩


/-! ## Operation sequences and concrete sample data -/

/-- A call against the welcome surface of the protocol store. -/
inductive WelcomeOp where
  | save (w : Welcome)
  | markProcessed (p : ProcessedWelcome)

def applyWelcomeOp (s : MdkState) : WelcomeOp → MdkState
  | .save w => saveWelcome s w
  | .markProcessed p => saveProcessedWelcome s p

def applyWelcomeOps (s : MdkState) (ops : List WelcomeOp) : MdkState :=
  ops.foldl applyWelcomeOp s

def applySaveGroups (s : MdkState) (gs : List Group) : MdkState :=
  gs.foldl saveGroup s

/-- Run a sequence of `increment_keyset_counter` calls on one keyset id,
collecting the returned values in call order. -/
def runCounterCalls (s : WalletState) (keyset_id : KsId) :
    List Nat → WalletState × List Nat
  | [] => (s, [])
  | n :: ns =>
      let r1 := increment_keyset_counter s keyset_id n
      let r2 := runCounterCalls r1.1 keyset_id ns
      (r2.1, r1.2 :: r2.2)

/-- Running partial sums starting from `acc`. -/
def partialSums (acc : Nat) : List Nat → List Nat
  | [] => []
  | n :: ns => (acc + n) :: partialSums (acc + n) ns

/-- Invariant tying the two group indexes to the sequence of saved
groups: keys are the stored group's own identifiers, keys are unique,
every stored group was saved, and the indexes agree. -/
def GroupIndexInv (gs : List Group) (s : MdkState) : Prop :=
  (s.groups.map Prod.fst).Nodup ∧
  (s.groups_by_nostr_id.map Prod.fst).Nodup ∧
  (∀ e ∈ s.groups, e.1 = e.2.mls_group_id ∧ e.2 ∈ gs) ∧
  (∀ e ∈ s.groups_by_nostr_id, e.1 = e.2.nostr_group_id ∧ e.2 ∈ gs) ∧
  (∀ g : Group, alGet g.mls_group_id s.groups = some g ↔
    alGet g.nostr_group_id s.groups_by_nostr_id = some g)

def sampleEid : EventId := List.replicate 32 (7 : Byte)

def sampleGid : GroupId := [(1 : Byte), (2 : Byte)]

def sampleNid : List Byte := List.replicate 32 (3 : Byte)

def sampleGroup : Group := ⟨sampleGid, sampleNid, "group one", ["admin1"], "x"⟩

def sampleMessage : Message := ⟨sampleEid, sampleGid, "hello"⟩

/-- A populated protocol store state exercising every index. -/
def sampleMdkState : MdkState :=
  ⟨[(sampleGid, sampleGroup)], [(sampleNid, sampleGroup)],
   [(sampleGid, [⟨"wss-relay", sampleGid⟩])],
   [(sampleEid, ⟨sampleEid, "w"⟩)], [],
   [(sampleEid, sampleMessage)], [(sampleGid, [sampleMessage])],
   [], [((sampleGid, 5), ⟨sampleGid, 5, "sec"⟩)]⟩

/-- A populated wallet state exercising every index. -/
def sampleWallet : WalletState :=
  ⟨[("https-mint", some "info")], [("https-mint", [⟨"ks1", "k"⟩])],
   [("ks1", ⟨"ks1", "k"⟩)], [("q1", ⟨"q1", "mq"⟩)], [("q2", ⟨"q2", "melt"⟩)],
   [("ks1", "keys")], [⟨"y1", "https-mint", "sat", "unspent", none, "p"⟩],
   [("ks1", 4)], [⟨"https-mint", "incoming", "sat", ["y1"], "t"⟩]⟩

/-- A medium whose engine-blob key holds non-decodable content. -/
def mediumBadOpenmls : Medium := ⟨some .malformed, some .malformed, some .malformed⟩

/-- A medium whose index-state and wallet keys hold non-decodable
content while the engine-blob key is absent. -/
def mediumBadMdkWallet : Medium := ⟨some .malformed, none, some .malformed⟩

/-- A proof carrying no spending condition. -/
def proofNoCond : ProofInfo := ⟨"y1", "m", "sat", "unspent", none, "p"⟩

def stateOneProof : WalletState := ⟨[], [], [], [], [], [], [proofNoCond], [], []⟩

/-- A proof with a fresh identifier and a concrete spending condition. -/
def proofY2 : ProofInfo := ⟨"y2", "m", "sat", "unspent", some "c1", "p2"⟩

def nidA : List Byte := List.replicate 32 (10 : Byte)

def nidB : List Byte := List.replicate 32 (11 : Byte)

/-- Two groups sharing a protocol id but differing in app id. -/
def groupX : Group := ⟨[(1 : Byte)], nidA, "gX", [], "x"⟩

def groupY : Group := ⟨[(1 : Byte)], nidB, "gY", [], "y"⟩

/-- A group with identifiers disjoint from `groupX`. -/
def groupZ : Group := ⟨[(2 : Byte)], nidB, "gZ", [], "z"⟩

def eidA : EventId := List.replicate 32 (21 : Byte)

def eidB : EventId := List.replicate 32 (22 : Byte)

def eidC : EventId := List.replicate 32 (23 : Byte)

def msgA : Message := ⟨eidA, sampleGid, "m1"⟩

def msgB : Message := ⟨eidB, sampleGid, "m2"⟩

def msgC : Message := ⟨eidC, sampleGid, "m3"⟩

/-- A wallet state with keysets registered under the URL `old-mint`. -/
def walletWithKeysets : WalletState :=
  ⟨[("old-mint", some "mi")], [("old-mint", [⟨"ks1", "k"⟩])],
   [("ks1", ⟨"ks1", "k"⟩)], [], [], [], [], [], []⟩

/-! ## Supporting lemmas -/

section AlistLaws

variable {κ α : Type} [DecidableEq κ]

theorem alGet_erase_self (k : κ) (l : List (κ × α)) : alGet k (alErase k l) = none := by
  induction l with
  | nil => rfl
  | cons e rest ih =>
    by_cases h : e.1 = k
    · rw [alErase, if_pos h, ih]
    · rw [alErase, if_neg h, alGet, if_neg h, ih]

theorem alGet_erase_ne {k k' : κ} (h : k ≠ k') (l : List (κ × α)) :
    alGet k (alErase k' l) = alGet k l := by
  induction l with
  | nil => rfl
  | cons e rest ih =>
    by_cases he : e.1 = k'
    · rw [alErase, if_pos he, ih, alGet, if_neg (by rw [he]; exact fun hh => h hh.symm)]
    · rw [alErase, if_neg he, alGet, alGet]
      by_cases hk : e.1 = k
      · rw [if_pos hk, if_pos hk]
      · rw [if_neg hk, if_neg hk, ih]

theorem alGet_insert_self (k : κ) (v : α) (l : List (κ × α)) :
    alGet k (alInsert k v l) = some v := by
  rw [alInsert, alGet, if_pos rfl]

theorem alGet_insert_ne {k k' : κ} (h : k ≠ k') (v : α) (l : List (κ × α)) :
    alGet k (alInsert k' v l) = alGet k l := by
  rw [alInsert, alGet, if_neg (fun hh => h hh.symm), alGet_erase_ne h]

theorem mem_erase_of_mem {e : κ × α} {k : κ} {l : List (κ × α)}
    (hm : e ∈ alErase k l) : e ∈ l := by
  induction l with
  | nil => exact absurd hm (by simp [alErase])
  | cons f rest ih =>
    by_cases h : f.1 = k
    · rw [alErase, if_pos h] at hm
      exact List.mem_cons_of_mem _ (ih hm)
    · rw [alErase, if_neg h] at hm
      rcases List.mem_cons.mp hm with rfl | hm
      · exact List.mem_cons_self _ _
      · exact List.mem_cons_of_mem _ (ih hm)

theorem mem_erase_key_ne {e : κ × α} {k : κ} {l : List (κ × α)}
    (hm : e ∈ alErase k l) : e.1 ≠ k := by
  induction l with
  | nil => exact absurd hm (by simp [alErase])
  | cons f rest ih =>
    by_cases h : f.1 = k
    · rw [alErase, if_pos h] at hm
      exact ih hm
    · rw [alErase, if_neg h] at hm
      rcases List.mem_cons.mp hm with rfl | hm
      · exact h
      · exact ih hm

theorem mem_insert_iff {e : κ × α} {k : κ} {v : α} {l : List (κ × α)} :
    e ∈ alInsert k v l ↔ e = (k, v) ∨ (e ∈ l ∧ e.1 ≠ k) := by
  constructor
  · intro hm
    rcases List.mem_cons.mp hm with rfl | hm
    · exact Or.inl rfl
    · exact Or.inr ⟨mem_erase_of_mem hm, mem_erase_key_ne hm⟩
  · rintro (rfl | ⟨hmem, hne⟩)
    · exact List.mem_cons_self _ _
    · refine List.mem_cons_of_mem _ ?_
      induction l with
      | nil => exact absurd hmem (by simp)
      | cons f rest ih =>
        rcases List.mem_cons.mp hmem with rfl | hmem
        · rw [alErase, if_neg hne]
          exact List.mem_cons_self _ _
        · by_cases h : f.1 = k
          · rw [alErase, if_pos h]; exact ih hmem
          · rw [alErase, if_neg h]; exact List.mem_cons_of_mem _ (ih hmem)

theorem alGet_eq_some_of_mem {k : κ} {v : α} {l : List (κ × α)}
    (hnd : (l.map Prod.fst).Nodup) (hm : (k, v) ∈ l) : alGet k l = some v := by
  induction l with
  | nil => exact absurd hm (by simp)
  | cons e rest ih =>
    simp only [List.map_cons, List.nodup_cons] at hnd
    rcases List.mem_cons.mp hm with rfl | hm
    · rw [alGet, if_pos rfl]
    · rw [alGet, if_neg ?_]
      · exact ih hnd.2 hm
      · intro he
        exact hnd.1 (he ▸ List.mem_map_of_mem Prod.fst hm)

theorem mem_of_alGet_eq_some {k : κ} {v : α} {l : List (κ × α)}
    (h : alGet k l = some v) : (k, v) ∈ l := by
  induction l with
  | nil => exact absurd h (by simp [alGet])
  | cons e rest ih =>
    by_cases he : e.1 = k
    · rw [alGet, if_pos he] at h
      obtain rfl := Option.some.inj h
      have : e = (k, e.2) := Prod.ext he rfl
      exact this ▸ List.mem_cons_self _ _
    · rw [alGet, if_neg he] at h
      exact List.mem_cons_of_mem _ (ih h)

theorem nodup_keys_erase (k : κ) {l : List (κ × α)}
    (hnd : (l.map Prod.fst).Nodup) : ((alErase k l).map Prod.fst).Nodup := by
  induction l with
  | nil => simp [alErase]
  | cons e rest ih =>
    simp only [List.map_cons, List.nodup_cons] at hnd
    by_cases h : e.1 = k
    · rw [alErase, if_pos h]; exact ih hnd.2
    · rw [alErase, if_neg h]
      simp only [List.map_cons, List.nodup_cons]
      refine ⟨fun hc => hnd.1 ?_, ih hnd.2⟩
      obtain ⟨f, hf, hfe⟩ := List.mem_map.mp hc
      exact hfe ▸ List.mem_map_of_mem Prod.fst (mem_erase_of_mem hf)

theorem nodup_keys_insert (k : κ) (v : α) {l : List (κ × α)}
    (hnd : (l.map Prod.fst).Nodup) : ((alInsert k v l).map Prod.fst).Nodup := by
  rw [alInsert]
  simp only [List.map_cons, List.nodup_cons]
  refine ⟨fun hc => ?_, nodup_keys_erase k hnd⟩
  obtain ⟨f, hf, hfe⟩ := List.mem_map.mp hc
  exact mem_erase_key_ne hf hfe

end AlistLaws

theorem fromHexDigit_toHexDigit {n : Nat} (h : n < 16) :
    fromHexDigit (toHexDigit n) = some n := by
  interval_cases n <;> rfl

theorem hexDecode_hexEncode (l : List Byte) : hexDecode (hexEncode l) = some l := by
  induction l with
  | nil => rfl
  | cons b bs ih =>
    have hhi : b.val / 16 < 16 := Nat.div_lt_of_lt_mul (by omega)
    have hlo : b.val % 16 < 16 := Nat.mod_lt _ (by omega)
    have hval : 16 * (b.val / 16) + b.val % 16 = b.val := Nat.div_add_mod b.val 16
    simp only [hexEncode, hexDecode, fromHexDigit_toHexDigit hhi,
      fromHexDigit_toHexDigit hlo, Option.bind_eq_bind, Option.some_bind]
    rw [dif_pos (by omega : 16 * (b.val / 16) + b.val % 16 < 256)]
    simp [ih, hval, Fin.ext_iff]

theorem toHexDigit_ne_colon {n : Nat} (h : n < 16) : toHexDigit n ≠ ':' := by
  interval_cases n <;> decide

theorem colon_not_mem_hexEncode (l : List Byte) : ':' ∉ hexEncode l := by
  induction l with
  | nil => simp [hexEncode]
  | cons b bs ih =>
    have hhi : b.val / 16 < 16 := Nat.div_lt_of_lt_mul (by omega)
    have hlo : b.val % 16 < 16 := Nat.mod_lt _ (by omega)
    simp only [hexEncode, List.mem_cons, not_or]
    exact ⟨fun h => (toHexDigit_ne_colon hhi) h.symm,
      fun h => (toHexDigit_ne_colon hlo) h.symm, ih⟩

theorem decDigit_decChar {n : Nat} (h : n < 10) : decDigit (decChar n) = some n := by
  interval_cases n <;> rfl

theorem decValRev_natToRevDigits (n : Nat) :
    decValRev (natToRevDigits n) = some n := by
  induction n using Nat.strong_induction_on with
  | _ n ih =>
    match n with
    | 0 => simp [natToRevDigits, decValRev]
    | m + 1 =>
      rw [natToRevDigits]
      have hdiv : (m + 1) / 10 < m + 1 := Nat.div_lt_self (Nat.succ_pos m) (by omega)
      simp only [decValRev, decDigit_decChar (Nat.mod_lt _ (by omega)),
        ih _ hdiv, Option.bind_eq_bind, Option.some_bind]
      rw [Nat.mod_add_div (m + 1) 10]

theorem parseU64_natToChars {n : Nat} (h : n < 2 ^ 64) :
    parseU64 (natToChars n) = some n := by
  rcases Nat.eq_zero_or_pos n with rfl | hpos
  · rfl
  · have hne : natToRevDigits n ≠ [] := by
      match n, hpos with
      | m + 1, _ => simp [natToRevDigits]
    unfold natToChars parseU64
    rw [if_neg (by omega)]
    have : (natToRevDigits n).reverse ≠ [] := by
      simpa using hne
    match hrev : (natToRevDigits n).reverse, this with
    | c :: cs, _ =>
      rw [← hrev, List.reverse_reverse, decValRev_natToRevDigits]
      simp only [Option.bind_eq_bind, Option.some_bind]
      rw [if_pos h]

theorem decChar_ne_colon {n : Nat} (h : n < 10) : decChar n ≠ ':' := by
  interval_cases n <;> decide

theorem colon_not_mem_natToChars (n : Nat) : ':' ∉ natToChars n := by
  have main : ∀ m, ':' ∉ natToRevDigits m := by
    intro m
    induction m using Nat.strong_induction_on with
    | _ m ih =>
      match m with
      | 0 => simp [natToRevDigits]
      | k + 1 =>
        rw [natToRevDigits]
        have hdiv : (k + 1) / 10 < k + 1 := Nat.div_lt_self (Nat.succ_pos k) (by omega)
        simp only [List.mem_cons, not_or]
        exact ⟨fun h => decChar_ne_colon (Nat.mod_lt _ (by omega)) h.symm, ih _ hdiv⟩
  unfold natToChars
  split
  · simp [decChar]
  · simpa using main n

theorem splitColon_of_not_mem {l : List Char} (h : ':' ∉ l) : splitColon l = [l] := by
  induction l with
  | nil => rfl
  | cons c cs ih =>
    simp only [List.mem_cons, not_or] at h
    rw [splitColon, if_neg (fun hc => h.1 hc.symm), ih h.2]

theorem splitColon_append {a b : List Char} (ha : ':' ∉ a) (hb : ':' ∉ b) :
    splitColon (a ++ ':' :: b) = [a, b] := by
  induction a with
  | nil => simp [splitColon, splitColon_of_not_mem hb]
  | cons c cs ih =>
    simp only [List.mem_cons, not_or] at ha
    rw [List.cons_append, splitColon, if_neg (fun hc => ha.1 hc.symm), ih ha.2]

theorem exMapM_map {α β γ : Type} {f : β → Except String γ} {g : α → β}
    (r : α → γ) {l : List α} (h : ∀ a ∈ l, f (g a) = .ok (r a)) :
    exMapM f (l.map g) = .ok (l.map r) := by
  induction l with
  | nil => rfl
  | cons a as ih =>
    simp only [List.map_cons, exMapM, h a (List.mem_cons_self a as),
      ih (fun a ha => h a (List.mem_cons_of_mem _ ha))]
    rfl

theorem decodeGroupIdKey_hexEncode (k : GroupId) :
    decodeGroupIdKey (hexEncode k) = .ok k := by
  rw [decodeGroupIdKey, hexDecode_hexEncode]

theorem decodeNostrKey_hexEncode {k : List Byte} (h : k.length = 32) :
    decodeNostrKey (hexEncode k) = .ok k := by
  simp [decodeNostrKey, hexDecode_hexEncode, h]

theorem decodeEventIdKey_hexEncode {k : EventId} (h : k.length = 32) :
    decodeEventIdKey (hexEncode k) = .ok k := by
  simp [decodeEventIdKey, hexDecode_hexEncode, h]

theorem decodeSecretKey_encode {gid : GroupId} {epoch : Nat} (h : epoch < 2 ^ 64) :
    decodeSecretKey (hexEncode gid ++ ':' :: natToChars epoch) = .ok (gid, epoch) := by
  rw [decodeSecretKey, splitColon_append (colon_not_mem_hexEncode gid)
    (colon_not_mem_natToChars epoch)]
  simp [hexDecode_hexEncode, parseU64_natToChars h]

/-- Serializing the in-memory indexes and decoding the result restores
the state index-for-index. -/
theorem mdk_state_roundtrip {s : MdkState} (hwf : s.wf) :
    MdkState.from_serializable s.to_serializable = .ok s := by
  obtain ⟨h1, h2, h3, h4, h5, h6⟩ := hwf
  unfold MdkState.from_serializable MdkState.to_serializable
  rw [exMapM_map id (fun e _ => by rw [decodeGroupIdKey_hexEncode]; rfl),
    exMapM_map id (fun e he => by rw [decodeNostrKey_hexEncode (h1 e he)]; rfl),
    exMapM_map id (fun e _ => by rw [decodeGroupIdKey_hexEncode]; rfl),
    exMapM_map id (fun e he => by rw [decodeEventIdKey_hexEncode (h2 e he)]; rfl),
    exMapM_map id (fun e he => by rw [decodeEventIdKey_hexEncode (h3 e he)]; rfl),
    exMapM_map id (fun e he => by rw [decodeEventIdKey_hexEncode (h4 e he)]; rfl),
    exMapM_map id (fun e _ => by rw [decodeGroupIdKey_hexEncode]; rfl),
    exMapM_map id (fun e he => by rw [decodeEventIdKey_hexEncode (h5 e he)]; rfl),
    exMapM_map id (fun e he => by rw [decodeSecretKey_encode (h6 e he)]; rfl)]
  simp only [List.map_id]
  rfl

theorem optMapM_map {α β γ : Type} {f : β → Option γ} {g : α → β}
    (r : α → γ) {l : List α} (h : ∀ a ∈ l, f (g a) = some (r a)) :
    optMapM f (l.map g) = some (l.map r) := by
  induction l with
  | nil => rfl
  | cons a as ih =>
    simp only [List.map_cons, optMapM, h a (List.mem_cons_self a as),
      ih (fun a ha => h a (List.mem_cons_of_mem _ ha))]
    rfl

theorem mapFromJson_mapToJson {α : Type} (encV : α → Json) (decV : Json → Option α)
    (hV : ∀ a, decV (encV a) = some a) (l : List (String × α)) :
    mapFromJson decV (mapToJson encV l) = some l := by
  rw [mapToJson, mapFromJson, optMapM_map id (fun e _ => by rw [hV]; rfl)]
  simp

theorem listFromJson_listToJson {α : Type} (encV : α → Json) (decV : Json → Option α)
    (hV : ∀ a, decV (encV a) = some a) (l : List α) :
    listFromJson decV (listToJson encV l) = some l := by
  rw [listToJson, listFromJson, optMapM_map id (fun a _ => hV a)]
  simp

theorem jOptStr_roundtrip (o : Option String) : jOptStr? (jOptStr o) = some o := by
  cases o <;> rfl

theorem keySetInfo_roundtrip (k : KeySetInfo) :
    keySetInfoFromJson (keySetInfoToJson k) = some k := by
  rfl

theorem mintQuote_roundtrip (q : MintQuote) :
    mintQuoteFromJson (mintQuoteToJson q) = some q := by
  rfl

theorem meltQuote_roundtrip (q : MeltQuote) :
    meltQuoteFromJson (meltQuoteToJson q) = some q := by
  rfl

theorem proofInfo_roundtrip (p : ProofInfo) :
    proofInfoFromJson (proofInfoToJson p) = some p := by
  cases hsc : p.spending_condition <;>
    simp [proofInfoFromJson, proofInfoToJson, Json.getField, alGet, hsc, jStr?, jOptStr,
      jOptStr?] <;> rw [← hsc]

theorem transaction_roundtrip (t : Transaction) :
    transactionFromJson (transactionToJson t) = some t := by
  have hys := listFromJson_listToJson Json.str jStr? (fun s => rfl) t.ys
  simp [transactionFromJson, transactionToJson, Json.getField, alGet, jStr?, hys]

/-- The wallet snapshot decodes back to an equal wallet state. -/
theorem wallet_state_roundtrip (w : WalletState) :
    walletFromJson (walletToJson w) = some w := by
  have h1 := mapFromJson_mapToJson jOptStr jOptStr? jOptStr_roundtrip w.mints
  have h2 := mapFromJson_mapToJson (listToJson keySetInfoToJson) (listFromJson keySetInfoFromJson) (listFromJson_listToJson keySetInfoToJson keySetInfoFromJson keySetInfo_roundtrip) w.keysets
  have h3 := mapFromJson_mapToJson keySetInfoToJson keySetInfoFromJson keySetInfo_roundtrip w.keyset_map
  have h4 := mapFromJson_mapToJson mintQuoteToJson mintQuoteFromJson mintQuote_roundtrip w.mint_quotes
  have h5 := mapFromJson_mapToJson meltQuoteToJson meltQuoteFromJson meltQuote_roundtrip w.melt_quotes
  have h6 := mapFromJson_mapToJson Json.str jStr? (fun s => rfl) w.keys
  have h7 := listFromJson_listToJson proofInfoToJson proofInfoFromJson proofInfo_roundtrip w.proofs
  have h8 := mapFromJson_mapToJson Json.num jNum? (fun n => rfl) w.keyset_counters
  have h9 := listFromJson_listToJson transactionToJson transactionFromJson transaction_roundtrip w.transactions
  simp [walletFromJson, walletToJson, Json.getField, alGet,
    h1, h2, h3, h4, h5, h6, h7, h8, h9]

theorem get_proofs_unfiltered (s : WalletState) :
    get_proofs s none none none none = s.proofs := by
  simp [get_proofs]

theorem pendingWelcomes_mem (s : MdkState) (w : Welcome) :
    w ∈ pendingWelcomes s ↔
      w ∈ s.welcomes.map Prod.snd ∧ w.id ∉ s.processed_welcomes.map Prod.fst := by
  simp [pendingWelcomes, List.mem_filter]

/-! ## The claims -/

/-- C1: serializing the in-memory indexes and decoding the result
reconstructs an index-for-index equal state, and the `WalletState` JSON
snapshot decodes back to an equal wallet state. -/
theorem claim_C1_roundtrip (s : MdkState) (hwf : s.wf) :
    MdkState.from_serializable s.to_serializable = .ok s ∧
    ∀ w : WalletState, walletFromJson (walletToJson w) = some w :=
  ⟨mdk_state_roundtrip hwf, wallet_state_roundtrip⟩

/-- C1 witness on a populated store. -/
theorem claim_C1_witness :
    MdkState.from_serializable sampleMdkState.to_serializable = .ok sampleMdkState ∧
    walletFromJson (walletToJson sampleWallet) = some sampleWallet :=
  ⟨(claim_C1_roundtrip sampleMdkState (by decide)).1,
   (claim_C1_roundtrip sampleMdkState (by decide)).2 sampleWallet⟩

/-- C2 counterexample: non-decodable content under the engine-blob key
makes `MdkHybridStorage::new` return an error instead of an empty
store. -/
theorem claim_C2_counterexample :
    MdkHybridStorage.new mediumBadOpenmls = .error "Base64 decode error" := rfl

/-- C2 (amended): the wallet constructor never fails and falls back to
the empty state on non-decodable content, and the protocol store falls
back to the empty index state on non-decodable `mdk_state` content; but
non-decodable content under the `openmls_storage` key aborts
`MdkHybridStorage::new` with an error. -/
theorem claim_C2_corrupt_medium (m : Medium) :
    (∃ w, HybridWalletDatabase.new m = .ok w) ∧
    (∀ e, load_from_indexeddb m = .error e →
      HybridWalletDatabase.new m = .ok WalletState.empty) ∧
    (∀ st, MdkHybridStorage.new m = .ok st →
      ∀ e, load_mdk_state m = .error e → st.state = MdkState.empty) ∧
    (m.openmls_storage = some Content.malformed →
      ∃ e, MdkHybridStorage.new m = .error e) ∧
    (∀ blob e, m.openmls_storage = some (Content.decoded blob) →
      exMapM decodeOpenmlsEntry blob = .error e →
      MdkHybridStorage.new m = .error e) := by
  refine ⟨⟨_, rfl⟩, ?_, ?_, ?_, ?_⟩
  · intro e h
    unfold HybridWalletDatabase.new
    rw [h]
  · intro st hst e he
    unfold MdkHybridStorage.new at hst
    rw [he] at hst
    cases ho : load_openmls_storage m with
    | ok l =>
      rw [ho] at hst
      cases hst
      rfl
    | error e2 =>
      rw [ho] at hst
      cases hst
  · intro h
    refine ⟨"Base64 decode error", ?_⟩
    have hl : load_openmls_storage m = .error "Base64 decode error" := by
      unfold load_openmls_storage
      rw [h]
    unfold MdkHybridStorage.new
    rw [hl]
    rfl
  · intro blob e hb he
    have hl : load_openmls_storage m = .error e := by
      unfold load_openmls_storage
      rw [hb]
      exact he
    unfold MdkHybridStorage.new
    rw [hl]
    rfl

/-- C2 witness: both fallback paths and the failing path at concrete
media. -/
theorem claim_C2_witness :
    HybridWalletDatabase.new mediumBadMdkWallet = .ok WalletState.empty ∧
    (⟨MdkState.empty, []⟩ : MdkHybridStorage).state = MdkState.empty ∧
    (∃ e, MdkHybridStorage.new mediumBadOpenmls = .error e) :=
  ⟨(claim_C2_corrupt_medium mediumBadMdkWallet).2.1 "Deserialization error" rfl,
   (claim_C2_corrupt_medium mediumBadMdkWallet).2.2.1 ⟨MdkState.empty, []⟩ rfl
     "Deserialization error" rfl,
   (claim_C2_corrupt_medium mediumBadOpenmls).2.2.2.1 rfl⟩

/-- C3: for every sequence of `save_welcome` and `save_processed_welcome`
operations, `pending_welcomes()` returns exactly the stored welcomes
whose id carries no `ProcessedWelcome` marker. -/
theorem claim_C3_pending_welcomes (ops : List WelcomeOp) (w : Welcome) :
    w ∈ pendingWelcomes (applyWelcomeOps MdkState.empty ops) ↔
      (∃ k, (k, w) ∈ (applyWelcomeOps MdkState.empty ops).welcomes) ∧
      ¬ ∃ p, (w.id, p) ∈ (applyWelcomeOps MdkState.empty ops).processed_welcomes := by
  have h1 : ∀ l : List (EventId × Welcome),
      w ∈ l.map Prod.snd ↔ ∃ k, (k, w) ∈ l := by
    intro l
    simp [List.mem_map, Prod.exists]
  have h2 : ∀ l : List (EventId × ProcessedWelcome),
      w.id ∈ l.map Prod.fst ↔ ∃ p, (w.id, p) ∈ l := by
    intro l
    simp [List.mem_map, Prod.exists]
  rw [pendingWelcomes_mem, h1, h2]

/-- C4 counterexample: the claim says a proof without a spending
condition is never returned when a concrete spending-condition filter is
supplied, but the source includes it. -/
theorem claim_C4_counterexample :
    proofNoCond ∈ get_proofs stateOneProof none none none (some ["cond1"]) := by
  decide

/-- C4 (amended): a stored proof without a spending condition passes
every spending-condition filter, supplied or not; a proof with a
condition passes a supplied filter exactly when its condition is
listed. -/
theorem claim_C4_condition_filter (s : WalletState) (conds : List SpendCond) (p : ProofInfo) :
    (p ∈ get_proofs s none none none (some conds) ↔
      p ∈ s.proofs ∧
        (p.spending_condition = none ∨ ∃ c ∈ conds, p.spending_condition = some c)) ∧
    (p ∈ get_proofs s none none none none ↔ p ∈ s.proofs) := by
  refine ⟨?_, by rw [get_proofs_unfiltered]⟩
  cases hsc : p.spending_condition with
  | none => simp [get_proofs, List.mem_filter, hsc]
  | some c => simp [get_proofs, List.mem_filter, hsc]

/-- C5 counterexample: re-adding a proof whose identifier is already
present (and not removed) leaves two proofs with the same `y`. -/
theorem claim_C5_counterexample :
    ¬ (((update_proofs stateOneProof [proofNoCond] []).proofs.map ProofInfo.y).Nodup) := by
  decide

/-- C5 (amended): after `update_proofs(added=A, removed_ys=R)` the
unfiltered `get_proofs()` result contains exactly (prior − R) ∪ A; when
the prior identifiers are distinct, the added identifiers are distinct,
and every added identifier is either removed or previously absent, the
result has no duplicate identifiers. -/
theorem claim_C5_update_proofs (s : WalletState) (A : List ProofInfo) (R : List PubKey)
    (hP : (s.proofs.map ProofInfo.y).Nodup)
    (hA : (A.map ProofInfo.y).Nodup)
    (hdisj : ∀ p ∈ A, p.y ∈ R ∨ ¬ ∃ q ∈ s.proofs, q.y = p.y) :
    (∀ p, p ∈ get_proofs (update_proofs s A R) none none none none ↔
      ((p ∈ s.proofs ∧ p.y ∉ R) ∨ p ∈ A)) ∧
    (((update_proofs s A R).proofs.map ProofInfo.y).Nodup) := by
  constructor
  · intro p
    rw [get_proofs_unfiltered]
    simp [update_proofs, List.mem_append, List.mem_filter]
  · rw [update_proofs]
    simp only [List.map_append]
    rw [List.nodup_append]
    refine ⟨((List.filter_sublist _).map ProofInfo.y).nodup hP, hA, ?_⟩
    intro a ha hb
    obtain ⟨q, hq, rfl⟩ := List.mem_map.mp ha
    obtain ⟨hq1, hq2⟩ := List.mem_filter.mp hq
    obtain ⟨p, hp, hpy⟩ := List.mem_map.mp hb
    rcases hdisj p hp with hr | habs
    · rw [hpy] at hr
      exact (of_decide_eq_true hq2) hr
    · exact habs ⟨q, hq1, hpy.symm⟩

/-- C5 witness: removing the stored proof and adding a fresh one gives
exactly the added proof with distinct identifiers. -/
theorem claim_C5_witness :
    (proofY2 ∈ get_proofs (update_proofs stateOneProof [proofY2] ["y1"])
        none none none none ↔
      ((proofY2 ∈ stateOneProof.proofs ∧ proofY2.y ∉ ["y1"]) ∨
        proofY2 ∈ [proofY2])) ∧
    (((update_proofs stateOneProof [proofY2] ["y1"]).proofs.map
        ProofInfo.y).Nodup) := by
  have h := claim_C5_update_proofs stateOneProof [proofY2] ["y1"]
    (by decide) (by decide) (by decide)
  exact ⟨h.1 proofY2, h.2⟩

theorem runCounterCalls_eq (keyset_id : KsId) (ns : List Nat) (s : WalletState) (v : Nat)
    (hv : (alGet keyset_id s.keyset_counters).getD 0 = v)
    (hsum : v + ns.sum < 4294967296) :
    (runCounterCalls s keyset_id ns).2 = partialSums v ns := by
  induction ns generalizing s v with
  | nil => rfl
  | cons n ns ih =>
    have hlt : v + n < 4294967296 := by
      simp only [List.sum_cons] at hsum
      omega
    rw [runCounterCalls, partialSums]
    simp only [increment_keyset_counter, hv, Nat.mod_eq_of_lt hlt]
    refine congrArg (List.cons (v + n)) ?_
    refine ih _ _ (by rw [alGet_insert_self]; rfl) ?_
    simp only [List.sum_cons] at hsum
    omega

theorem partialSums_head (v : Nat) (ns : List Nat) :
    (partialSums v ns).head? = ns.head?.map (fun n => v + n) := by
  cases ns <;> rfl

theorem partialSums_chain (v : Nat) (ns : List Nat) (hpos : ∀ n ∈ ns, 0 < n) :
    List.Chain' (· < ·) (partialSums v ns) := by
  induction ns generalizing v with
  | nil => simp [partialSums]
  | cons n ns ih =>
    rw [partialSums, List.chain'_cons']
    refine ⟨?_, ih (v + n) (fun m hm => hpos m (List.mem_cons_of_mem _ hm))⟩
    intro b hb
    rw [partialSums_head] at hb
    cases hns : ns with
    | nil => rw [hns] at hb; cases hb
    | cons m ms =>
      rw [hns] at hb
      simp only [List.head?_cons, Option.map_some'] at hb
      obtain rfl := Option.mem_some_iff.mp hb
      have := hpos m (by rw [hns]; exact List.mem_cons_of_mem _ (List.mem_cons_self _ _))
      omega

theorem partialSums_get (v : Nat) (ns : List Nat) (i a b c : Nat)
    (ha : (partialSums v ns).get? i = some a)
    (hb : (partialSums v ns).get? (i + 1) = some b)
    (hc : ns.get? (i + 1) = some c) : b = a + c := by
  induction ns generalizing v i with
  | nil => rw [partialSums] at ha; cases ha
  | cons n ns ih =>
    cases i with
    | zero =>
      rw [partialSums] at ha hb
      obtain rfl : v + n = a := by simpa using ha
      cases hns : ns with
      | nil => rw [hns, partialSums] at hb; cases hb
      | cons m ms =>
        rw [hns, partialSums] at hb
        rw [hns] at hc
        simp only [List.get?_cons_succ, List.get?_cons_zero] at hb hc
        obtain rfl := Option.some.inj hb
        obtain rfl := Option.some.inj hc
        omega
    | succ j =>
      rw [partialSums] at ha hb
      simp only [List.get?_cons_succ] at ha hb hc
      exact ih _ j ha hb hc

/-- C6 counterexample: a zero increment repeats the previous value, so
the returned values are not strictly increasing. -/
theorem claim_C6_counterexample :
    ¬ List.Chain' (· < ·) (runCounterCalls WalletState.empty "k1" [0, 0]).2 := by
  have h : (runCounterCalls WalletState.empty "k1" [0, 0]).2 = [0, 0] := rfl
  rw [h]
  intro hc
  exact absurd (List.chain'_cons.mp hc).1 (by omega)

/-- C6 (amended): for positive increments whose total stays below
`2^32`, the values returned by successive `increment_keyset_counter`
calls on one previously unseen keyset id are strictly increasing, the
first call returns its increment, and consecutive differences equal the
requested increments. -/
theorem claim_C6_counter (keyset_id : KsId) (ns : List Nat) (s : WalletState)
    (hinit : alGet keyset_id s.keyset_counters = none)
    (hpos : ∀ n ∈ ns, 0 < n)
    (hsum : ns.sum < 4294967296) :
    List.Chain' (· < ·) (runCounterCalls s keyset_id ns).2 ∧
    (runCounterCalls s keyset_id ns).2.head? = ns.head? ∧
    (∀ i a b c, (runCounterCalls s keyset_id ns).2.get? i = some a →
      (runCounterCalls s keyset_id ns).2.get? (i + 1) = some b →
      ns.get? (i + 1) = some c → b = a + c) := by
  have heq : (runCounterCalls s keyset_id ns).2 = partialSums 0 ns :=
    runCounterCalls_eq keyset_id ns s 0 (by rw [hinit]; rfl) (by omega)
  rw [heq]
  refine ⟨partialSums_chain 0 ns hpos, ?_, fun i a b c => partialSums_get 0 ns i a b c⟩
  rw [partialSums_head]
  cases ns <;> simp

/-- C6 witness: increments 5 then 3 return 5 then 8. -/
theorem claim_C6_witness :
    List.Chain' (· < ·) (runCounterCalls WalletState.empty "k1" [5, 3]).2 ∧
    (runCounterCalls WalletState.empty "k1" [5, 3]).2.head? = some 5 ∧
    (8 : Nat) = 5 + 3 := by
  have h := claim_C6_counter "k1" [5, 3] WalletState.empty rfl (by decide) (by decide)
  refine ⟨h.1, ?_, h.2.2 0 5 8 3 (by decide) (by decide) (by decide)⟩
  rw [h.2.1]
  rfl

theorem groupIndexInv_empty (gs : List Group) : GroupIndexInv gs MdkState.empty := by
  refine ⟨List.nodup_nil, List.nodup_nil, ?_, ?_, ?_⟩ <;>
    simp [MdkState.empty, alGet]

theorem groupIndexInv_save (gs : List Group) (s : MdkState) (g : Group)
    (hg : g ∈ gs)
    (hcons : ∀ g1 ∈ gs, ∀ g2 ∈ gs,
      (g1.mls_group_id = g2.mls_group_id ↔ g1.nostr_group_id = g2.nostr_group_id))
    (hinv : GroupIndexInv gs s) : GroupIndexInv gs (saveGroup s g) := by
  obtain ⟨hnd1, hnd2, hmem1, hmem2, hiff⟩ := hinv
  have hgroups : (saveGroup s g).groups = alInsert g.mls_group_id g s.groups := rfl
  have hnostr : (saveGroup s g).groups_by_nostr_id
      = alInsert g.nostr_group_id g s.groups_by_nostr_id := rfl
  refine ⟨?_, ?_, ?_, ?_, ?_⟩
  · rw [hgroups]
    exact nodup_keys_insert _ _ hnd1
  · rw [hnostr]
    exact nodup_keys_insert _ _ hnd2
  · intro e he
    rw [hgroups] at he
    rcases mem_insert_iff.mp he with rfl | ⟨hmem, _⟩
    · exact ⟨rfl, hg⟩
    · exact hmem1 e hmem
  · intro e he
    rw [hnostr] at he
    rcases mem_insert_iff.mp he with rfl | ⟨hmem, _⟩
    · exact ⟨rfl, hg⟩
    · exact hmem2 e hmem
  · intro h
    rw [hgroups, hnostr]
    constructor
    · intro hget
      by_cases hm : h.mls_group_id = g.mls_group_id
      · rw [hm, alGet_insert_self] at hget
        obtain rfl := Option.some.inj hget
        rw [alGet_insert_self]
      · rw [alGet_insert_ne hm] at hget
        have hhin : h ∈ gs := (hmem1 _ (mem_of_alGet_eq_some hget)).2
        have hn : h.nostr_group_id ≠ g.nostr_group_id := fun heq =>
          hm ((hcons h hhin g hg).mpr heq)
        rw [alGet_insert_ne hn]
        exact (hiff h).mp hget
    · intro hget
      by_cases hn : h.nostr_group_id = g.nostr_group_id
      · rw [hn, alGet_insert_self] at hget
        obtain rfl := Option.some.inj hget
        rw [alGet_insert_self]
      · rw [alGet_insert_ne hn] at hget
        have hhin : h ∈ gs := (hmem2 _ (mem_of_alGet_eq_some hget)).2
        have hm : h.mls_group_id ≠ g.mls_group_id := fun heq =>
          hn ((hcons h hhin g hg).mp heq)
        rw [alGet_insert_ne hm]
        exact (hiff h).mpr hget

theorem groupIndexInv_fold (gs : List Group)
    (hcons : ∀ g1 ∈ gs, ∀ g2 ∈ gs,
      (g1.mls_group_id = g2.mls_group_id ↔ g1.nostr_group_id = g2.nostr_group_id))
    (rest : List Group) (s : MdkState)
    (hsub : ∀ g ∈ rest, g ∈ gs) (hinv : GroupIndexInv gs s) :
    GroupIndexInv gs (applySaveGroups s rest) := by
  induction rest generalizing s with
  | nil => exact hinv
  | cons g rest ih =>
    exact ih (saveGroup s g) (fun x hx => hsub x (List.mem_cons_of_mem _ hx))
      (groupIndexInv_save gs s g (hsub g (List.mem_cons_self _ _)) hcons hinv)

/-- C7 counterexample: saving two groups that share a protocol id but
differ in app id leaves a group reachable through the app-id index whose
protocol id resolves to a different group. -/
theorem claim_C7_counterexample :
    find_group_by_nostr_group_id (applySaveGroups MdkState.empty [groupX, groupY])
        groupX.nostr_group_id = some groupX ∧
    find_group_by_mls_group_id (applySaveGroups MdkState.empty [groupX, groupY])
        groupX.mls_group_id ≠ some groupX := by
  decide

/-- C7 (amended): when no two saved groups share exactly one of the two
identifiers, every group reachable through either index is found under
both of its identifiers, so neither index has an entry the other
lacks. -/
theorem claim_C7_dual_index (gs : List Group)
    (hcons : ∀ g1 ∈ gs, ∀ g2 ∈ gs,
      (g1.mls_group_id = g2.mls_group_id ↔ g1.nostr_group_id = g2.nostr_group_id))
    (g : Group)
    (hreach : (∃ k, (k, g) ∈ (applySaveGroups MdkState.empty gs).groups) ∨
      (∃ k, (k, g) ∈ (applySaveGroups MdkState.empty gs).groups_by_nostr_id)) :
    find_group_by_mls_group_id (applySaveGroups MdkState.empty gs)
        g.mls_group_id = some g ∧
    find_group_by_nostr_group_id (applySaveGroups MdkState.empty gs)
        g.nostr_group_id = some g := by
  obtain ⟨hnd1, hnd2, hmem1, hmem2, hiff⟩ :=
    groupIndexInv_fold gs hcons gs MdkState.empty (fun _ h => h)
      (groupIndexInv_empty gs)
  rcases hreach with ⟨k, hk⟩ | ⟨k, hk⟩
  · have hkey := (hmem1 _ hk).1
    have hget : alGet g.mls_group_id (applySaveGroups MdkState.empty gs).groups
        = some g := alGet_eq_some_of_mem hnd1 (by rw [← hkey]; exact hk)
    exact ⟨hget, (hiff g).mp hget⟩
  · have hkey := (hmem2 _ hk).1
    have hget : alGet g.nostr_group_id
        (applySaveGroups MdkState.empty gs).groups_by_nostr_id
        = some g := alGet_eq_some_of_mem hnd2 (by rw [← hkey]; exact hk)
    exact ⟨(hiff g).mpr hget, hget⟩

/-- C7 witness: two groups with disjoint identifier pairs. -/
theorem claim_C7_witness :
    find_group_by_mls_group_id (applySaveGroups MdkState.empty [groupX, groupZ])
        groupX.mls_group_id = some groupX ∧
    find_group_by_nostr_group_id (applySaveGroups MdkState.empty [groupX, groupZ])
        groupX.nostr_group_id = some groupX :=
  claim_C7_dual_index [groupX, groupZ] (by decide) groupX
    (Or.inl ⟨groupX.mls_group_id, by decide⟩)

theorem messagesOf_save_self (s : MdkState) (m : Message) :
    messagesOf (saveMessage s m) m.mls_group_id
        = messagesOf s m.mls_group_id ++ [m] := by
  unfold messagesOf saveMessage
  rw [alGet_insert_self]
  rfl

theorem messagesOf_save_other (s : MdkState) (m : Message) (gid : GroupId)
    (h : gid ≠ m.mls_group_id) :
    messagesOf (saveMessage s m) gid = messagesOf s gid := by
  unfold messagesOf saveMessage
  rw [alGet_insert_ne h]

/-- C8: `save_message` appends to the end of the per-group list without
touching other groups, a group id with no messages yields the empty
list, and after saving G1 then M1, M2, M3 in order, the state obtained
by serializing and reloading returns exactly `[M1, M2, M3]` for G1. -/
theorem claim_C8_message_order (s : MdkState) (m : Message) (gid : GroupId)
    (g1 : Group) (m1 m2 m3 : Message)
    (hm1 : m1.mls_group_id = g1.mls_group_id)
    (hm2 : m2.mls_group_id = g1.mls_group_id)
    (hm3 : m3.mls_group_id = g1.mls_group_id) :
    (messagesOf (saveMessage s m) m.mls_group_id
        = messagesOf s m.mls_group_id ++ [m]) ∧
    (gid ≠ m.mls_group_id → messagesOf (saveMessage s m) gid = messagesOf s gid) ∧
    (alGet gid s.messages_by_group = none → messagesOf s gid = []) ∧
    ((saveMessage (saveMessage (saveMessage (saveGroup MdkState.empty g1) m1) m2)
        m3).wf →
      ∀ s2, MdkState.from_serializable
          (saveMessage (saveMessage (saveMessage (saveGroup MdkState.empty g1) m1)
            m2) m3).to_serializable = .ok s2 →
        messagesOf s2 g1.mls_group_id = [m1, m2, m3]) := by
  refine ⟨messagesOf_save_self s m, fun h => messagesOf_save_other s m gid h,
    fun h => by unfold messagesOf; rw [h]; rfl, ?_⟩
  intro hwf s2 hs2
  rw [mdk_state_roundtrip hwf] at hs2
  obtain rfl := Except.ok.inj hs2
  have h3 := messagesOf_save_self
    (saveMessage (saveMessage (saveGroup MdkState.empty g1) m1) m2) m3
  rw [hm3] at h3
  have h2 := messagesOf_save_self (saveMessage (saveGroup MdkState.empty g1) m1) m2
  rw [hm2] at h2
  have h1 := messagesOf_save_self (saveGroup MdkState.empty g1) m1
  rw [hm1] at h1
  have h0 : messagesOf (saveGroup MdkState.empty g1) g1.mls_group_id = [] := rfl
  rw [h3, h2, h1, h0]
  rfl

/-- C8 witness: the append law, the frame on another group id, the empty
result, and the concrete three-message reload scenario. -/
theorem claim_C8_witness :
    messagesOf (saveMessage sampleMdkState msgA) msgA.mls_group_id
        = messagesOf sampleMdkState msgA.mls_group_id ++ [msgA] ∧
    messagesOf (saveMessage sampleMdkState msgA) [(9 : Byte)]
        = messagesOf sampleMdkState [(9 : Byte)] ∧
    messagesOf sampleMdkState [(9 : Byte)] = [] ∧
    messagesOf (saveMessage (saveMessage (saveMessage
        (saveGroup MdkState.empty sampleGroup) msgA) msgB) msgC)
      sampleGroup.mls_group_id = [msgA, msgB, msgC] := by
  have h := claim_C8_message_order sampleMdkState msgA [(9 : Byte)]
    sampleGroup msgA msgB msgC rfl rfl rfl
  exact ⟨h.1, h.2.1 (by decide), h.2.2.1 (by decide),
    h.2.2.2 (by decide) _ (mdk_state_roundtrip (by decide))⟩

/-- C9 counterexample: the claim says the keyset index keyed by mint URL
is updated at rename time, but after `update_mint_url("old-mint",
"new-mint")` the keysets remain keyed by the old URL. -/
theorem claim_C9_counterexample :
    alGet "new-mint" (update_mint_url walletWithKeysets "old-mint" "new-mint").keysets
        = none ∧
    alGet "old-mint" (update_mint_url walletWithKeysets "old-mint" "new-mint").keysets
        = some [⟨"ks1", "k"⟩] := by
  decide

/-- C9 (amended): `update_mint_url` moves only the mint-registry entry;
the keyset index, proofs and transactions are left unchanged, and a
missing source URL leaves the whole state unchanged. -/
theorem claim_C9_update_mint_url (s : WalletState) (old_url new_url : MintUrl) :
    ((update_mint_url s old_url new_url).keysets = s.keysets) ∧
    ((update_mint_url s old_url new_url).proofs = s.proofs) ∧
    ((update_mint_url s old_url new_url).transactions = s.transactions) ∧
    (alGet old_url s.mints = none → update_mint_url s old_url new_url = s) ∧
    (∀ info, alGet old_url s.mints = some info →
      alGet new_url (update_mint_url s old_url new_url).mints = some info ∧
      (old_url ≠ new_url →
        alGet old_url (update_mint_url s old_url new_url).mints = none)) := by
  refine ⟨?_, ?_, ?_, ?_, ?_⟩
  · unfold update_mint_url
    cases alGet old_url s.mints <;> rfl
  · unfold update_mint_url
    cases alGet old_url s.mints <;> rfl
  · unfold update_mint_url
    cases alGet old_url s.mints <;> rfl
  · intro h
    unfold update_mint_url
    rw [h]
  · intro info h
    unfold update_mint_url
    rw [h]
    refine ⟨alGet_insert_self _ _ _, fun hne => ?_⟩
    rw [alGet_insert_ne hne, alRemove, alGet_erase_self]

/-- C9 witness. -/
theorem claim_C9_witness :
    (update_mint_url walletWithKeysets "old-mint" "new-mint").proofs
        = walletWithKeysets.proofs ∧
    update_mint_url walletWithKeysets "absent" "new-mint" = walletWithKeysets ∧
    alGet "new-mint" (update_mint_url walletWithKeysets "old-mint" "new-mint").mints
        = some (some "mi") ∧
    alGet "old-mint" (update_mint_url walletWithKeysets "old-mint" "new-mint").mints
        = none :=
  ⟨(claim_C9_update_mint_url walletWithKeysets "old-mint" "new-mint").2.1,
   (claim_C9_update_mint_url walletWithKeysets "absent" "new-mint").2.2.2.1 (by decide),
   ((claim_C9_update_mint_url walletWithKeysets "old-mint" "new-mint").2.2.2.2
     (some "mi") (by decide)).1,
   ((claim_C9_update_mint_url walletWithKeysets "old-mint" "new-mint").2.2.2.2
     (some "mi") (by decide)).2 (by decide)⟩

/-- C10: `get_mint` returns `None` for an unregistered URL and for a URL
registered without metadata, returns the metadata exactly when some was
registered, while `get_mints` still lists the metadata-less URL. -/
theorem claim_C10_get_mint (s : WalletState) (url : MintUrl) :
    (alGet url s.mints = none → get_mint s url = none) ∧
    (get_mint (add_mint s url none) url = none) ∧
    (∀ info, get_mint (add_mint s url (some info)) url = some info) ∧
    (∀ info, get_mint s url = some info ↔ alGet url s.mints = some (some info)) ∧
    (∀ mi, alGet url (get_mints (add_mint s url mi)) = some mi) := by
  refine ⟨fun h => by simp [get_mint, h], ?_, ?_, ?_, ?_⟩
  · simp [get_mint, add_mint, alGet_insert_self]
  · intro info
    simp [get_mint, add_mint, alGet_insert_self]
  · intro info
    cases ho : alGet url s.mints with
    | none => simp [get_mint, ho]
    | some o => cases o <;> simp [get_mint, ho]
  · intro mi
    simp [get_mints, add_mint, alGet_insert_self]

/-- C10 witness. -/
theorem claim_C10_witness :
    get_mint sampleWallet "nope" = none ∧
    get_mint (add_mint sampleWallet "https-mint" none) "https-mint" = none ∧
    alGet "https-mint" (get_mints (add_mint sampleWallet "https-mint" none))
        = some none :=
  ⟨(claim_C10_get_mint sampleWallet "nope").1 (by decide),
   (claim_C10_get_mint sampleWallet "https-mint").2.1,
   (claim_C10_get_mint sampleWallet "https-mint").2.2.2.2 none⟩

end CashuMlsChat
